import Mathlib

/-!
# Verification of the GTIN/EAN-13 finder (`app.py`)

A shallow embedding of the core logic of `app.py`:
checksum validation, code extraction from free text (a model of the
regular expression `\b(?:\d[ \t\-]?){12,14}\b` with Python backtracking
semantics), evidence scoring and winner selection, the search wrapper's
error behaviour, query construction, and the per-row processing step.

Modelling conventions:
* Python strings are Lean `String`s (lists of characters); the character
  classes `\d`, `\w`, `\s` are modelled over ASCII.
* Python dicts that map codes to scores are association lists in
  insertion order, which is exactly the iteration order Python guarantees.
* Python floats (`1.0`, weights, scores) are modelled as rationals `ℚ`.
* A function that can raise is modelled with `Except`.
-/

/-- `clean_digits` from `app.py`: `re.sub(r"[^0-9]", "", s or "")`,
keeping only the decimal digits of the input. -/
def clean_digits (s : String) : String :=
  String.mk (s.data.filter Char.isDigit)

/-- `ean13_check_digit` from `app.py`:
`s = sum((ord(ch)-48) * (3 if i%2 else 1) for i, ch in enumerate(d12))`
followed by `(10 - (s % 10)) % 10`.  The Python source performs no input
validation: it computes this value for an arbitrary string. -/
def ean13_check_digit (d12 : String) : Int :=
  let s : Int := (d12.data.enum.map
    (fun p => ((p.2.toNat : Int) - 48) * (if p.1 % 2 = 1 then 3 else 1))).sum
  (10 - s % 10) % 10

/-- `is_valid_ean13` from `app.py`: strip non-digits, then require exactly
13 digits whose last digit is the check digit of the first 12. -/
def is_valid_ean13 (code : String) : Bool :=
  let d := clean_digits code
  d.length == 13 &&
    ean13_check_digit (String.mk (d.data.take 12))
      == ((d.data.getLast?.getD '0').toNat : Int) - 48

/-- `upc12_to_gtin13` from `app.py`: strip non-digits, require exactly 12
digits, prepend `"0"`, and return the candidate only if it validates. -/
def upc12_to_gtin13 (upc : String) : Option String :=
  let d := clean_digits upc
  if d.length = 12 then
    let cand := "0" ++ d
    if is_valid_ean13 cand then some cand else none
  else none

/-! ## Model of the token regular expression `EAN_RE`

`EAN_RE = re.compile(r"\b(?:\d[ \t\-]?){12,14}\b")`.  `muAux` performs the
backtracking search of the Python engine for the repeated group: a greedy
repetition of at most 14 units, each a digit optionally followed by one
separator (the optional separator is consumed greedily), that may stop
once at least 12 units were consumed and the word-boundary assertion
holds at the stopping position.  The fuel argument is the number of units
that may still be consumed, starting at 14. -/

/-- ASCII model of the regex word class `\w` used by `\b`. -/
def isWordChar (c : Char) : Bool := c.isAlphanum || c == '_'

/-- The separator class `[ \t\-]` of `EAN_RE`. -/
def isSepChar (c : Char) : Bool := c == ' ' || c == '\t' || c == '-'

/-- Whether the character at index `i` (if any) is a word character. -/
def wordAt (s : List Char) (i : Nat) : Bool :=
  ((s[i]?).map isWordChar).getD false

/-- The word-boundary assertion `\b` at index `i` of `s`. -/
def wordB (s : List Char) (i : Nat) : Bool :=
  (if i = 0 then false else wordAt s (i - 1)) != wordAt s i

/-- Backtracking matcher for `(?:\d[ \t\-]?){12,14}\b` starting at `pos`
with `fuel` units still allowed (so `14 - fuel` units consumed).
Returns the end position of the match chosen by the Python engine. -/
def muAux (s : List Char) : Nat → Nat → Option Nat
  | 0, pos => if wordB s pos then some pos else none
  | fuel + 1, pos =>
    let ext : Option Nat :=
      match s[pos]? with
      | some c =>
        if c.isDigit then
          let withSep : Option Nat :=
            match s[pos + 1]? with
            | some c2 => if isSepChar c2 then muAux s fuel (pos + 2) else none
            | none => none
          match withSep with
          | some e => some e
          | none => muAux s fuel (pos + 1)
        else none
      | none => none
    match ext with
    | some e => some e
    | none => if fuel + 1 ≤ 2 && wordB s pos then some pos else none

/-- Attempt to match `EAN_RE` anchored at position `pos`: the leading `\b`
assertion followed by the repeated group. -/
def matchFrom (s : List Char) (pos : Nat) : Option Nat :=
  if wordB s pos then muAux s 14 pos else none

/-- The scan loop of `EAN_RE.finditer`: try successive start positions;
after a (necessarily non-empty) match, resume at its end.  Returns the
list of `(start, end)` spans in order. -/
def scanAux (s : List Char) : Nat → Nat → List (Nat × Nat)
  | 0, _ => []
  | fuel + 1, pos =>
    if pos > s.length then []
    else
      match matchFrom s pos with
      | some e => (pos, e) :: scanAux s fuel e
      | none => scanAux s fuel (pos + 1)

/-- All spans of `EAN_RE.finditer(text)`. -/
def eanSpans (s : List Char) : List (Nat × Nat) :=
  scanAux s (s.length + 2) 0

/-- The body of the `for m in EAN_RE.finditer(...)` loop in
`find_eans_in_text`: clean the matched token, keep a cleaned 13-digit
token if checksum-valid, convert a cleaned 12-digit token via
`upc12_to_gtin13`, and discard every other length. -/
def candidate_of (tok : String) : Option String :=
  let d := clean_digits tok
  if d.length = 13 then (if is_valid_ean13 d then some d else none)
  else if d.length = 12 then upc12_to_gtin13 d
  else none

/-- The list `out` built by `find_eans_in_text` before deduplication:
candidates in match order, repeats included. -/
def ean_candidates (text : String) : List String :=
  let s := text.data
  (eanSpans s).filterMap
    (fun m => candidate_of (String.mk ((s.drop m.1).take (m.2 - m.1))))

/-- Worker for `dedupFirst`: keep the elements not yet `seen`, in order,
recording kept elements in `seen`. -/
def dedupFirstAux (seen : List String) : List String → List String
  | [] => []
  | x :: xs =>
    if x ∈ seen then dedupFirstAux seen xs
    else x :: dedupFirstAux (x :: seen) xs

/-- `list(dict.fromkeys(out))` from `find_eans_in_text`: keep the first
occurrence of each element, in order, dropping later repeats. -/
def dedupFirst (l : List String) : List String :=
  dedupFirstAux [] l

/-- `find_eans_in_text` from `app.py`. -/
def find_eans_in_text (text : String) : List String :=
  dedupFirst (ean_candidates text)

/-- `find_eans_in_text` on an optional input: the Python body reads
`EAN_RE.finditer(text or "")`, so `None` behaves like `""`. -/
def find_eans_opt (text : Option String) : List String :=
  find_eans_in_text (text.getD "")

/-! ## Evidence aggregation (`choose_best_ean`) -/

/-- The whitespace class `\s` of Python regexes, over ASCII. -/
def isPySpace (c : Char) : Bool :=
  c == ' ' || c == '\t' || c == '\n' || c == '\r' || c == '\x0b' || c == '\x0c'

/-- Whether the alternative `cod\s*ean` matches at the head of the list:
the letters `cod`, any number of whitespace characters, then `ean`. -/
def codEanFrom : List Char → Bool
  | 'c' :: 'o' :: 'd' :: rest =>
    match rest.dropWhile isPySpace with
    | 'e' :: 'a' :: 'n' :: _ => true
    | _ => false
  | _ => false

/-- Whether `cod\s*ean` matches anywhere in the list. -/
def codEanSearch : List Char → Bool
  | [] => false
  | c :: rest => codEanFrom (c :: rest) || codEanSearch rest

/-- Whether `needle` is a prefix of `hay`. -/
def leadsWith : List Char → List Char → Bool
  | [], _ => true
  | _ :: _, [] => false
  | a :: as, b :: bs => a == b && leadsWith as bs

/-- Whether `needle` occurs as a contiguous substring of the list. -/
def containsSub (needle : List Char) : List Char → Bool
  | [] => leadsWith needle []
  | c :: rest => leadsWith needle (c :: rest) || containsSub needle rest

/-- Python `str.lower()` over ASCII: lowercase every character. -/
def pyLower (s : String) : String :=
  String.mk (s.data.map Char.toLower)

/-- The keyword test of `choose_best_ean`:
`re.search(r"(ean|gtin|barcode|cod\s*ean|ean-13)", text.lower())`. -/
def keyword_hit (text : String) : Bool :=
  let l := (pyLower text).data
  containsSub "ean".data l || containsSub "gtin".data l ||
    containsSub "barcode".data l || codEanSearch l ||
    containsSub "ean-13".data l

/-- `scores[c] = scores.get(c, 0.0) + v` on an insertion-ordered
association list: update the entry for `c` in place, or append a new
entry at the end — exactly the behaviour of a Python dict. -/
def addScore : List (String × ℚ) → String → ℚ → List (String × ℚ)
  | [], c, v => [(c, v)]
  | (k, s) :: rest, c, v =>
    if k = c then (k, s + v) :: rest else (k, s) :: addScore rest c v

/-- The inner loop of `choose_best_ean` for one evidence item
`(text, w)`: every code extracted from `text` receives `base * w`,
where `base` is `2.0` on a keyword hit and `1.0` otherwise. -/
def scoreText (sc : List (String × ℚ)) (text : String) (w : ℚ) :
    List (String × ℚ) :=
  (find_eans_in_text text).foldl
    (fun sc c => addScore sc c ((if keyword_hit text then (2 : ℚ) else 1) * w))
    sc

/-- The score table built by `choose_best_ean` over all evidence items. -/
def buildScores (items : List (String × ℚ)) : List (String × ℚ) :=
  items.foldl (fun sc tw => scoreText sc tw.1 tw.2) []

/-- `max(scores.items(), key=lambda kv: kv[1])`: the first entry with
maximal score, in dict iteration (= insertion) order. -/
def maxBySnd : List (String × ℚ) → Option (String × ℚ)
  | [] => none
  | x :: xs => some (xs.foldl (fun best y => if best.2 < y.2 then y else best) x)

/-- `choose_best_ean` from `app.py`. -/
def choose_best_ean (items : List (String × ℚ)) : Option String :=
  (maxBySnd (buildScores items)).map Prod.fst

/-- The accumulated score of code `c` in a score table (`scores.get(c)`
with default `0.0`). -/
def getScore (sc : List (String × ℚ)) (c : String) : ℚ :=
  match sc.find? (fun kv => kv.1 == c) with
  | some kv => kv.2
  | none => 0

/-- Formalisation of the spec's accumulation rule, for comparison with
`buildScores`: each item `(t, w)` contributes `base * w` to every code
extracted from `t`, with `base = 2` on a keyword hit and `1` otherwise. -/
def specScore (items : List (String × ℚ)) (c : String) : ℚ :=
  (items.map (fun tw =>
    if c ∈ find_eans_in_text tw.1 then
      (if keyword_hit tw.1 then (2 : ℚ) else 1) * tw.2
    else 0)).sum

/-! ## The search wrapper (`google_search`) -/

/-- One result object of the Custom Search response, keeping the fields
the program reads. -/
structure SearchItem where
  snippet : Option String
  link : Option String
deriving DecidableEq, Repr

/-- Outcome of the `requests.get` call inside `google_search`: a response
with a status code and the optional `items` field of its JSON body, or an
exception raised by the transport layer. -/
inductive ReqOutcome where
  | response (status : Nat) (items : Option (List SearchItem))
  | timeout
  | transportError
deriving DecidableEq, Repr

/-- The exception that escapes `google_search` when `requests.get`
raises. -/
inductive NetError where
  | timeout
  | transportError
deriving DecidableEq, Repr

/-- Python truthiness of an optional string (`not GOOGLE_API_KEY`):
`None` and `""` are falsy. -/
def truthy (o : Option String) : Bool :=
  match o with
  | none => false
  | some s => !(s == "")

/-- `google_search` from `app.py`: return `[]` when either key is
unconfigured or the status is not 200; return the parsed `items`
(`r.json().get("items", []) or []`) on a 200 response.  The
`requests.get` call is not wrapped in `try`, so a timeout or transport
error propagates as an exception. -/
def google_search (apiKey cseCx : Option String) (outcome : ReqOutcome) :
    Except NetError (List SearchItem) :=
  if !truthy apiKey || !truthy cseCx then .ok []
  else
    match outcome with
    | .response status items =>
      if status ≠ 200 then .ok [] else .ok (items.getD [])
    | .timeout => .error .timeout
    | .transportError => .error .transportError

/-! ## Query construction and the row step -/

/-- The query list built at the top of `lookup`: two queries in SKU mode
(`mode = "Doar SKU"`) and two queries in name mode. -/
def lookup_queries (mode sku name : String) : List String :=
  if mode = "Doar SKU" then
    ["\"" ++ sku ++ "\" ean", "\"" ++ sku ++ "\" gtin"]
  else
    ["\"" ++ name ++ "\" ean", "\"" ++ name ++ "\" gtin"]

/-- The write step of the row loop: write `found` when it is truthy and
checksum-valid, otherwise write the sentinel `"NOT_FOUND"`. -/
def written_value (found : Option String) : String :=
  match found with
  | some f => if f ≠ "" && is_valid_ean13 f then f else "NOT_FOUND"
  | none => "NOT_FOUND"

/-- Python `str.strip()` (over ASCII whitespace): drop leading and
trailing whitespace characters. -/
def pyStrip (s : String) : String :=
  String.mk
    (((s.data.dropWhile isPySpace).reverse.dropWhile isPySpace).reverse)

/-- Python `str.upper()` over ASCII: uppercase every character. -/
def pyUpper (s : String) : String :=
  String.mk (s.data.map Char.toUpper)

/-- The skip test of the row loop:
`if current and (is_valid_ean13(current) or current.upper()=="NOT_FOUND")`
on `current = str(row.get(col_target,"")).strip()`. -/
def row_skipped (raw : String) : Bool :=
  let current := pyStrip raw
  !(current == "") &&
    (is_valid_ean13 current || pyUpper current == "NOT_FOUND")

/-- One iteration of the row loop, as a function of the raw target cell
and of the lookup call (passed as a thunk so that not invoking it is
observable): a skipped row keeps its cell value, otherwise the result of
`lookup` is written through `written_value`. -/
def row_step (raw : String) (lookupFn : Unit → Option String) : String :=
  if row_skipped raw then raw else written_value (lookupFn ())

/-! ## Lemmas about deduplication -/

theorem mem_dedupFirstAux (l : List String) :
    ∀ (seen : List String) (x : String),
      x ∈ dedupFirstAux seen l ↔ x ∈ l ∧ x ∉ seen := by
  induction l with
  | nil => intro seen x; simp [dedupFirstAux]
  | cons a xs ih =>
    intro seen x
    by_cases ha : a ∈ seen
    · simp only [dedupFirstAux, if_pos ha]
      rw [ih]
      constructor
      · rintro ⟨h1, h2⟩
        exact ⟨List.mem_cons_of_mem _ h1, h2⟩
      · rintro ⟨h1, h2⟩
        rcases List.mem_cons.mp h1 with h | h
        · subst h; exact absurd ha h2
        · exact ⟨h, h2⟩
    · simp only [dedupFirstAux, if_neg ha]
      constructor
      · intro h
        rcases List.mem_cons.mp h with h | h
        · subst h; exact ⟨List.mem_cons_self _ _, ha⟩
        · have hm := (ih _ x).mp h
          exact ⟨List.mem_cons_of_mem _ hm.1,
            fun hs => hm.2 (List.mem_cons_of_mem _ hs)⟩
      · rintro ⟨h1, h2⟩
        rcases List.mem_cons.mp h1 with h | h
        · subst h; exact List.mem_cons_self _ _
        · by_cases hxa : x = a
          · subst hxa; exact List.mem_cons_self _ _
          · refine List.mem_cons_of_mem _ ((ih _ x).mpr ⟨h, ?_⟩)
            intro hs
            rcases List.mem_cons.mp hs with h2' | h2'
            · exact hxa h2'
            · exact h2 h2'

theorem dedupFirstAux_nodup (l : List String) :
    ∀ seen, (dedupFirstAux seen l).Nodup := by
  induction l with
  | nil => intro seen; simp [dedupFirstAux]
  | cons a xs ih =>
    intro seen
    by_cases ha : a ∈ seen
    · simp only [dedupFirstAux, if_pos ha]
      exact ih seen
    · simp only [dedupFirstAux, if_neg ha]
      refine List.nodup_cons.mpr ⟨?_, ih _⟩
      intro hmem
      exact ((mem_dedupFirstAux xs _ a).mp hmem).2 (List.mem_cons_self _ _)

theorem dedupFirstAux_pairwise (l : List String) :
    ∀ seen, (dedupFirstAux seen l).Pairwise
      (fun x y => l.indexOf x < l.indexOf y) := by
  induction l with
  | nil => intro seen; simp [dedupFirstAux]
  | cons a xs ih =>
    intro seen
    by_cases ha : a ∈ seen
    · simp only [dedupFirstAux, if_pos ha]
      refine (ih seen).imp_of_mem ?_
      intro x y hx hy hlt
      have hxm := (mem_dedupFirstAux xs seen x).mp hx
      have hym := (mem_dedupFirstAux xs seen y).mp hy
      have hxa : x ≠ a := fun h => hxm.2 (by rw [h]; exact ha)
      have hya : y ≠ a := fun h => hym.2 (by rw [h]; exact ha)
      rw [List.indexOf_cons_ne _ (fun h => hxa h.symm),
        List.indexOf_cons_ne _ (fun h => hya h.symm)]
      exact Nat.succ_lt_succ hlt
    · simp only [dedupFirstAux, if_neg ha]
      refine List.pairwise_cons.mpr ⟨?_, ?_⟩
      · intro y hy
        have hym := (mem_dedupFirstAux xs _ y).mp hy
        have hya : y ≠ a :=
          fun h => hym.2 (by rw [h]; exact List.mem_cons_self _ _)
        rw [List.indexOf_cons_self,
          List.indexOf_cons_ne _ (fun h => hya h.symm)]
        exact Nat.succ_pos _
      · refine (ih (a :: seen)).imp_of_mem ?_
        intro x y hx hy hlt
        have hxm := (mem_dedupFirstAux xs _ x).mp hx
        have hym := (mem_dedupFirstAux xs _ y).mp hy
        have hxa : x ≠ a :=
          fun h => hxm.2 (by rw [h]; exact List.mem_cons_self _ _)
        have hya : y ≠ a :=
          fun h => hym.2 (by rw [h]; exact List.mem_cons_self _ _)
        rw [List.indexOf_cons_ne _ (fun h => hxa h.symm),
          List.indexOf_cons_ne _ (fun h => hya h.symm)]
        exact Nat.succ_lt_succ hlt

theorem mem_dedupFirst (l : List String) : ∀ x, x ∈ dedupFirst l ↔ x ∈ l := by
  intro x
  unfold dedupFirst
  rw [mem_dedupFirstAux]
  simp

theorem dedupFirst_nodup (l : List String) : (dedupFirst l).Nodup :=
  dedupFirstAux_nodup l []

theorem dedupFirst_pairwise (l : List String) :
    (dedupFirst l).Pairwise (fun x y => l.indexOf x < l.indexOf y) :=
  dedupFirstAux_pairwise l []

/-! ## Checksum validator claims -/

theorem clean_digits_of_digits {d : String}
    (h : ∀ c ∈ d.data, c.isDigit = true) : clean_digits d = d := by
  unfold clean_digits
  rw [List.filter_eq_self.mpr h]

/-- C7: for every 12-digit string `d`, `upc12_to_gtin13 d` is either
`none` or exactly `some ("0" ++ d)`, and in the latter case
`is_valid_ean13 ("0" ++ d)` holds. -/
theorem upc_roundtrip (d : String) (h12 : d.length = 12)
    (hd : ∀ c ∈ d.data, c.isDigit = true) :
    upc12_to_gtin13 d = none ∨
      (upc12_to_gtin13 d = some ("0" ++ d) ∧
        is_valid_ean13 ("0" ++ d) = true) := by
  unfold upc12_to_gtin13
  rw [clean_digits_of_digits hd]
  rw [if_pos h12]
  by_cases hv : is_valid_ean13 ("0" ++ d) = true
  · right
    rw [if_pos hv]
    exact ⟨rfl, hv⟩
  · left
    rw [if_neg hv]

/-- Witness for C7 at scenario C's input `"036000291452"`. -/
theorem upc_roundtrip_witness :
    upc12_to_gtin13 "036000291452" = none ∨
      (upc12_to_gtin13 "036000291452" = some ("0" ++ "036000291452") ∧
        is_valid_ean13 ("0" ++ "036000291452") = true) :=
  upc_roundtrip "036000291452" (by decide) (by decide)

/-- C6 counterexample: `ean13_check_digit` applied to `"999"` — a string
that is not 12 digits long — does not fail fast: it silently computes
and returns the value `5`, refuting the claim that a call violating the
12-digit precondition fails rather than returning a value. -/
theorem check_digit_silent_cex : ean13_check_digit "999" = 5 := by decide

/-- C6 amended: `ean13_check_digit` performs no input validation at all;
for every string, 12 digits or not, it silently returns a value in
`[0, 10)`. -/
theorem check_digit_total (s : String) :
    0 ≤ ean13_check_digit s ∧ ean13_check_digit s < 10 := by
  unfold ean13_check_digit
  exact ⟨Int.emod_nonneg _ (by norm_num), Int.emod_lt_of_pos _ (by norm_num)⟩

/-! ## Search wrapper claim -/

/-- C2: `google_search` does return `[]` when unconfigured or on a
non-200 response, but a timeout raised by `requests.get` propagates as
an exception — the claim that it never raises on timeout fails on the
code.  Evaluated at the failing input: both keys configured, the request
times out. -/
theorem google_search_timeout_raises :
    google_search (some "k") (some "cx") ReqOutcome.timeout =
        Except.error NetError.timeout ∧
      google_search (some "k") (some "cx")
          (ReqOutcome.response 500 (some [])) = Except.ok [] ∧
      google_search none none ReqOutcome.timeout = Except.ok [] := by
  exact ⟨rfl, rfl, rfl⟩

/-! ## Query strategy claim -/

/-- C5 counterexample: the SKU-mode query list for identifier `"X"` is
exactly the two queries `"X" ean` and `"X" gtin`; it does not contain
the query `"X" cod ean` claimed by the spec. -/
theorem sku_queries_cex :
    lookup_queries "Doar SKU" "X" "Y" = ["\"X\" ean", "\"X\" gtin"] ∧
      ¬ ("\"X\" cod ean" ∈ lookup_queries "Doar SKU" "X" "Y") := by
  constructor
  · rfl
  · decide

/-- C5 amended: in SKU mode the query strategy builds exactly two
queries from fixed templates, `"<id>" ean` and `"<id>" gtin`; there is
no additional `cod ean` query. -/
theorem sku_queries (sku name : String) :
    lookup_queries "Doar SKU" sku name =
      ["\"" ++ sku ++ "\" ean", "\"" ++ sku ++ "\" gtin"] := by
  unfold lookup_queries
  rw [if_pos rfl]

/-! ## Row-loop claims -/

/-- C1 counterexample: the row whose target cell holds the non-empty
value `"abc"` is not skipped — the lookup result is written over it (and
the outcome depends on the lookup call, so the Query Strategy is
invoked), refuting the claim that every non-empty target is skipped. -/
theorem row_reprocess_cex :
    pyStrip "abc" ≠ "" ∧
      row_step "abc" (fun _ => some "5903396373473") = "5903396373473" ∧
      row_step "abc" (fun _ => none) = "NOT_FOUND" := by
  refine ⟨by decide, by decide, by decide⟩

/-- C1 amended: a row is skipped — left unchanged, with the lookup never
invoked — exactly when its stripped target value is non-empty and is
either a checksum-valid EAN-13 or the sentinel `NOT_FOUND` up to letter
case; otherwise the row is re-processed and the write step's result is
stored. -/
theorem row_skip_iff (raw : String) (f g : Unit → Option String) :
    (row_skipped raw = true ↔
      pyStrip raw ≠ "" ∧
        (is_valid_ean13 (pyStrip raw) = true ∨
          pyUpper (pyStrip raw) = "NOT_FOUND")) ∧
      (row_skipped raw = true →
        row_step raw f = raw ∧ row_step raw f = row_step raw g) ∧
      (row_skipped raw = false → row_step raw f = written_value (f ())) := by
  refine ⟨?_, ?_, ?_⟩
  · simp [row_skipped]
  · intro h
    unfold row_step
    rw [h]
    exact ⟨rfl, rfl⟩
  · intro h
    unfold row_step
    rw [h]
    rfl

/-- Witness for C1's amended statement on the skipped row `" 5903396373473 "`. -/
theorem row_skip_iff_witness :
    row_step " 5903396373473 " (fun _ => none) = " 5903396373473 " ∧
      row_step " 5903396373473 " (fun _ => none) =
        row_step " 5903396373473 " (fun _ => some "4006381333931") :=
  (row_skip_iff " 5903396373473 " (fun _ => none)
    (fun _ => some "4006381333931")).2.1 (by decide)

/-- C10: the sentinel test is case-insensitive — any row whose stripped
target upper-cases to `"NOT_FOUND"` is skipped, its cell is unchanged,
and the lookup is never invoked. -/
theorem sentinel_skip_ci (raw : String) (f g : Unit → Option String)
    (h : pyUpper (pyStrip raw) = "NOT_FOUND") :
    row_skipped raw = true ∧ row_step raw f = raw ∧
      row_step raw f = row_step raw g := by
  have hne : pyStrip raw ≠ "" := by
    intro h0
    rw [h0] at h
    exact absurd h (by decide)
  have hs : row_skipped raw = true := by
    simp [row_skipped, hne, h]
  refine ⟨hs, ?_, ?_⟩ <;> simp [row_step, hs]

/-- Witness for C10 at the lowercase sentinel `"not_found"`. -/
theorem sentinel_skip_ci_witness :
    row_skipped "not_found" = true ∧
      row_step "not_found" (fun _ => none) = "not_found" ∧
      row_step "not_found" (fun _ => none) =
        row_step "not_found" (fun _ => some "4006381333931") :=
  sentinel_skip_ci "not_found" (fun _ => none)
    (fun _ => some "4006381333931") (by decide)

/-- C3: every processed (non-skipped) row gets either the sentinel
`"NOT_FOUND"` or a value passing `is_valid_ean13`; a candidate failing
the validity re-check at the write step is never written. -/
theorem processed_write_valid (raw : String) (f : Unit → Option String)
    (h : row_skipped raw = false) :
    row_step raw f = "NOT_FOUND" ∨
      is_valid_ean13 (row_step raw f) = true := by
  have hstep : row_step raw f = written_value (f ()) := by
    unfold row_step
    rw [h]
    rfl
  rw [hstep]
  cases hf : f () with
  | none => left; rfl
  | some v =>
    unfold written_value
    by_cases hv : is_valid_ean13 v = true
    · by_cases he : v = ""
      · left; simp [he]
      · right; simp [he, hv]
    · left; simp [hv]

/-- Witness for C3: an empty target row processed with an invalid
candidate gets the sentinel. -/
theorem processed_write_valid_witness :
    row_step "" (fun _ => some "123") = "NOT_FOUND" ∨
      is_valid_ean13 (row_step "" (fun _ => some "123")) = true :=
  processed_write_valid "" (fun _ => some "123") (by decide)

/-! ## Extractor claim -/

/-- C9: `find_eans_in_text` returns the candidate codes deduplicated in
first-occurrence order — the result has no duplicates, contains exactly
the codes of the raw candidate list, and lists them in strictly
increasing order of first occurrence (`List.indexOf` is the index of the
first occurrence); empty or missing input yields `[]` without error. -/
theorem extract_contract :
    (∀ text : String,
      (find_eans_in_text text).Nodup ∧
        (∀ x, x ∈ find_eans_in_text text ↔ x ∈ ean_candidates text) ∧
        (find_eans_in_text text).Pairwise
          (fun x y => (ean_candidates text).indexOf x <
            (ean_candidates text).indexOf y)) ∧
      find_eans_opt none = [] ∧ find_eans_in_text "" = [] := by
  refine ⟨fun text => ⟨?_, ?_, ?_⟩, by decide, by decide⟩
  · exact dedupFirst_nodup _
  · exact mem_dedupFirst _
  · exact dedupFirst_pairwise _

/-! ## Lemmas about the score table -/

theorem getScore_cons (k : String) (s : ℚ) (t : List (String × ℚ))
    (x : String) :
    getScore ((k, s) :: t) x = if k = x then s else getScore t x := by
  by_cases h : k = x
  · simp [getScore, List.find?_cons, h]
  · simp [getScore, List.find?_cons, h]

theorem getScore_nil (x : String) : getScore [] x = 0 := rfl

theorem getScore_addScore (sc : List (String × ℚ)) (c : String) (v : ℚ)
    (x : String) :
    getScore (addScore sc c v) x =
      if x = c then getScore sc c + v else getScore sc x := by
  induction sc with
  | nil =>
    show getScore [(c, v)] x = _
    by_cases h : x = c
    · subst h
      simp [getScore_cons, getScore_nil]
    · simp [getScore_cons, getScore_nil, h, Ne.symm h]
  | cons kv rest ih =>
    obtain ⟨k, s⟩ := kv
    by_cases hk : k = c
    · subst hk
      show getScore
          (if k = k then (k, s + v) :: rest
            else (k, s) :: addScore rest k v) x = _
      rw [if_pos rfl]
      by_cases hx : x = k
      · subst hx
        simp [getScore_cons]
      · simp [getScore_cons, hx, Ne.symm hx]
    · show getScore
          (if k = c then (k, s + v) :: rest
            else (k, s) :: addScore rest c v) x = _
      rw [if_neg hk]
      by_cases hx : x = k
      · subst hx
        simp [getScore_cons, ih, hk]
      · by_cases hxc : x = c
        · subst hxc
          simp [getScore_cons, ih, hx, Ne.symm hx, hk]
        · simp [getScore_cons, ih, hx, Ne.symm hx, hxc, hk]

theorem getScore_foldl_addScore (v : ℚ) (l : List String) :
    ∀ (sc : List (String × ℚ)) (x : String), l.Nodup →
      getScore (l.foldl (fun s c => addScore s c v) sc) x =
        getScore sc x + if x ∈ l then v else 0 := by
  induction l with
  | nil => intro sc x _; simp
  | cons a xs ih =>
    intro sc x hnd
    rw [List.foldl_cons]
    rw [ih _ x (List.nodup_cons.mp hnd).2]
    rw [getScore_addScore]
    by_cases hxa : x = a
    · subst hxa
      have hnx : x ∉ xs := (List.nodup_cons.mp hnd).1
      simp [hnx]
    · by_cases hxl : x ∈ xs
      · simp [hxa, hxl, List.mem_cons]
      · simp [hxa, hxl, List.mem_cons]

theorem find_eans_nodup (text : String) : (find_eans_in_text text).Nodup :=
  dedupFirst_nodup _

theorem getScore_scoreText (sc : List (String × ℚ)) (text : String)
    (w : ℚ) (x : String) :
    getScore (scoreText sc text w) x =
      getScore sc x +
        (if x ∈ find_eans_in_text text then
          (if keyword_hit text then (2 : ℚ) else 1) * w
        else 0) := by
  unfold scoreText
  exact getScore_foldl_addScore _ _ _ _ (find_eans_nodup text)

theorem getScore_buildScores_aux (items : List (String × ℚ)) :
    ∀ (sc : List (String × ℚ)) (x : String),
      getScore (items.foldl (fun sc tw => scoreText sc tw.1 tw.2) sc) x =
        getScore sc x + specScore items x := by
  induction items with
  | nil => intro sc x; simp [specScore]
  | cons tw rest ih =>
    intro sc x
    rw [List.foldl_cons, ih, getScore_scoreText]
    simp only [specScore, List.map_cons, List.sum_cons]
    ring

theorem getScore_buildScores (items : List (String × ℚ)) (x : String) :
    getScore (buildScores items) x = specScore items x := by
  have h := getScore_buildScores_aux items [] x
  unfold buildScores
  rw [h]
  simp [getScore, List.find?]

theorem mem_keys_addScore (sc : List (String × ℚ)) (c : String) (v : ℚ)
    (x : String) :
    x ∈ (addScore sc c v).map Prod.fst ↔
      x ∈ sc.map Prod.fst ∨ x = c := by
  induction sc with
  | nil =>
    show x ∈ List.map Prod.fst [(c, v)] ↔ _
    simp
  | cons kv rest ih =>
    obtain ⟨k, s⟩ := kv
    by_cases hk : k = c
    · subst hk
      show x ∈ (if k = k then (k, s + v) :: rest
          else (k, s) :: addScore rest k v).map Prod.fst ↔ _
      rw [if_pos rfl]
      simp only [List.map_cons, List.mem_cons]
      tauto
    · show x ∈ (if k = c then (k, s + v) :: rest
          else (k, s) :: addScore rest c v).map Prod.fst ↔ _
      rw [if_neg hk]
      simp only [List.map_cons, List.mem_cons, ih]
      tauto

theorem keys_nodup_addScore (sc : List (String × ℚ)) (c : String) (v : ℚ)
    (h : (sc.map Prod.fst).Nodup) :
    ((addScore sc c v).map Prod.fst).Nodup := by
  induction sc with
  | nil =>
    show (List.map Prod.fst [(c, v)]).Nodup
    simp
  | cons kv rest ih =>
    obtain ⟨k, s⟩ := kv
    rw [List.map_cons, List.nodup_cons] at h
    by_cases hk : k = c
    · subst hk
      show ((if k = k then (k, s + v) :: rest
          else (k, s) :: addScore rest k v).map Prod.fst).Nodup
      rw [if_pos rfl, List.map_cons, List.nodup_cons]
      exact ⟨h.1, h.2⟩
    · show ((if k = c then (k, s + v) :: rest
          else (k, s) :: addScore rest c v).map Prod.fst).Nodup
      rw [if_neg hk, List.map_cons, List.nodup_cons]
      refine ⟨?_, ih h.2⟩
      intro hmem
      rcases (mem_keys_addScore rest c v k).mp hmem with hm | hm
      · exact h.1 hm
      · exact hk hm

theorem mem_keys_foldl_addScore (v : ℚ) (l : List String) :
    ∀ (sc : List (String × ℚ)) (x : String),
      x ∈ ((l.foldl (fun s c => addScore s c v) sc).map Prod.fst) ↔
        x ∈ sc.map Prod.fst ∨ x ∈ l := by
  induction l with
  | nil => intro sc x; simp
  | cons a xs ih =>
    intro sc x
    rw [List.foldl_cons, ih, mem_keys_addScore]
    simp only [List.mem_cons]
    tauto

theorem keys_nodup_foldl_addScore (v : ℚ) (l : List String) :
    ∀ sc : List (String × ℚ), (sc.map Prod.fst).Nodup →
      ((l.foldl (fun s c => addScore s c v) sc).map Prod.fst).Nodup := by
  induction l with
  | nil => intro sc h; exact h
  | cons a xs ih =>
    intro sc h
    rw [List.foldl_cons]
    exact ih _ (keys_nodup_addScore _ _ _ h)

theorem mem_keys_scoreText (sc : List (String × ℚ)) (t : String) (w : ℚ)
    (x : String) :
    x ∈ (scoreText sc t w).map Prod.fst ↔
      x ∈ sc.map Prod.fst ∨ x ∈ find_eans_in_text t :=
  mem_keys_foldl_addScore _ _ _ _

theorem keys_nodup_scoreText (sc : List (String × ℚ)) (t : String) (w : ℚ)
    (h : (sc.map Prod.fst).Nodup) :
    ((scoreText sc t w).map Prod.fst).Nodup :=
  keys_nodup_foldl_addScore _ _ _ h

theorem mem_keys_buildScores_aux (items : List (String × ℚ)) :
    ∀ (sc : List (String × ℚ)) (x : String),
      x ∈ ((items.foldl (fun sc tw => scoreText sc tw.1 tw.2) sc).map
          Prod.fst) ↔
        x ∈ sc.map Prod.fst ∨
          ∃ tw ∈ items, x ∈ find_eans_in_text tw.1 := by
  induction items with
  | nil => intro sc x; simp
  | cons tw rest ih =>
    intro sc x
    rw [List.foldl_cons, ih, mem_keys_scoreText]
    constructor
    · rintro ((h | h) | ⟨u, hu, hx⟩)
      · exact Or.inl h
      · exact Or.inr ⟨tw, List.mem_cons_self _ _, h⟩
      · exact Or.inr ⟨u, List.mem_cons_of_mem _ hu, hx⟩
    · rintro (h | ⟨u, hu, hx⟩)
      · exact Or.inl (Or.inl h)
      · rcases List.mem_cons.mp hu with h | h
        · subst h; exact Or.inl (Or.inr hx)
        · exact Or.inr ⟨u, h, hx⟩

theorem mem_keys_buildScores (items : List (String × ℚ)) (x : String) :
    x ∈ (buildScores items).map Prod.fst ↔
      ∃ tw ∈ items, x ∈ find_eans_in_text tw.1 := by
  unfold buildScores
  rw [mem_keys_buildScores_aux]
  simp

theorem keys_nodup_buildScores_aux (items : List (String × ℚ)) :
    ∀ sc : List (String × ℚ), (sc.map Prod.fst).Nodup →
      ((items.foldl (fun sc tw => scoreText sc tw.1 tw.2) sc).map
        Prod.fst).Nodup := by
  induction items with
  | nil => intro sc h; exact h
  | cons tw rest ih =>
    intro sc h
    rw [List.foldl_cons]
    exact ih _ (keys_nodup_scoreText _ _ _ h)

theorem keys_nodup_buildScores (items : List (String × ℚ)) :
    ((buildScores items).map Prod.fst).Nodup := by
  unfold buildScores
  exact keys_nodup_buildScores_aux items [] (by simp)

theorem getScore_of_mem_nodup (sc : List (String × ℚ)) :
    (sc.map Prod.fst).Nodup → ∀ kv ∈ sc, getScore sc kv.1 = kv.2 := by
  induction sc with
  | nil => intro _ kv h; simp at h
  | cons hd rest ih =>
    intro hnd kv hmem
    obtain ⟨k, s⟩ := hd
    rw [List.map_cons, List.nodup_cons] at hnd
    rcases List.mem_cons.mp hmem with h | h
    · subst h
      rw [getScore_cons, if_pos rfl]
    · have hk : k ≠ kv.1 := by
        intro he
        apply hnd.1
        rw [he]
        exact List.mem_map.mpr ⟨kv, h, rfl⟩
      rw [getScore_cons, if_neg hk]
      exact ih hnd.2 kv h

theorem addScore_ne_nil (sc : List (String × ℚ)) (c : String) (v : ℚ) :
    addScore sc c v ≠ [] := by
  cases sc with
  | nil => simp [addScore]
  | cons kv rest =>
    obtain ⟨k, s⟩ := kv
    by_cases hk : k = c
    · subst hk
      show (if k = k then (k, s + v) :: rest
          else (k, s) :: addScore rest k v) ≠ []
      rw [if_pos rfl]
      simp
    · show (if k = c then (k, s + v) :: rest
          else (k, s) :: addScore rest c v) ≠ []
      rw [if_neg hk]
      simp

theorem foldl_addScore_ne_nil (v : ℚ) (l : List String) :
    ∀ sc : List (String × ℚ), sc ≠ [] →
      l.foldl (fun s c => addScore s c v) sc ≠ [] := by
  induction l with
  | nil => intro sc h; exact h
  | cons a xs ih =>
    intro sc _
    rw [List.foldl_cons]
    exact ih _ (addScore_ne_nil _ _ _)

theorem scoreText_eq_nil_iff (sc : List (String × ℚ)) (t : String) (w : ℚ) :
    scoreText sc t w = [] ↔ sc = [] ∧ find_eans_in_text t = [] := by
  unfold scoreText
  cases h : find_eans_in_text t with
  | nil => simp
  | cons c cs =>
    rw [List.foldl_cons]
    constructor
    · intro hh
      exact absurd hh (foldl_addScore_ne_nil _ _ _ (addScore_ne_nil _ _ _))
    · rintro ⟨_, hcs⟩
      exact absurd hcs (List.cons_ne_nil _ _)

theorem buildScores_eq_nil_aux (items : List (String × ℚ)) :
    ∀ sc : List (String × ℚ),
      items.foldl (fun sc tw => scoreText sc tw.1 tw.2) sc = [] ↔
        sc = [] ∧ ∀ tw ∈ items, find_eans_in_text tw.1 = [] := by
  induction items with
  | nil => intro sc; simp
  | cons tw rest ih =>
    intro sc
    rw [List.foldl_cons, ih, scoreText_eq_nil_iff]
    constructor
    · rintro ⟨⟨h1, h2⟩, h3⟩
      refine ⟨h1, fun u hu => ?_⟩
      rcases List.mem_cons.mp hu with h | h
      · subst h; exact h2
      · exact h3 u h
    · rintro ⟨h1, h2⟩
      exact ⟨⟨h1, h2 tw (List.mem_cons_self _ _)⟩,
        fun u hu => h2 u (List.mem_cons_of_mem _ hu)⟩

theorem buildScores_eq_nil_iff (items : List (String × ℚ)) :
    buildScores items = [] ↔
      ∀ tw ∈ items, find_eans_in_text tw.1 = [] := by
  unfold buildScores
  rw [buildScores_eq_nil_aux]
  simp

theorem foldl_max_spec (xs : List (String × ℚ)) :
    ∀ x : String × ℚ,
      (xs.foldl (fun best y => if best.2 < y.2 then y else best) x) ∈
          x :: xs ∧
        ∀ y ∈ x :: xs,
          y.2 ≤ (xs.foldl (fun best y => if best.2 < y.2 then y else best)
            x).2 := by
  induction xs with
  | nil =>
    intro x
    refine ⟨List.mem_cons_self _ _, ?_⟩
    intro y hy
    rcases List.mem_cons.mp hy with h | h
    · exact h ▸ le_refl _
    · simp at h
  | cons z zs ih =>
    intro x
    rw [List.foldl_cons]
    obtain ⟨hmem, hb⟩ := ih (if x.2 < z.2 then z else x)
    constructor
    · rcases List.mem_cons.mp hmem with h | h
      · rw [h]
        by_cases hlt : x.2 < z.2
        · rw [if_pos hlt]
          exact List.mem_cons_of_mem _ (List.mem_cons_self _ _)
        · rw [if_neg hlt]
          exact List.mem_cons_self _ _
      · exact List.mem_cons_of_mem _ (List.mem_cons_of_mem _ h)
    · intro y hy
      rcases List.mem_cons.mp hy with h | h
      · subst h
        refine le_trans ?_ (hb _ (List.mem_cons_self _ _))
        by_cases hlt : y.2 < z.2
        · rw [if_pos hlt]
          exact le_of_lt hlt
        · rw [if_neg hlt]
      · rcases List.mem_cons.mp h with h2 | h2
        · subst h2
          refine le_trans ?_ (hb _ (List.mem_cons_self _ _))
          by_cases hlt : x.2 < y.2
          · rw [if_pos hlt]
          · rw [if_neg hlt]
            exact le_of_not_lt hlt
        · exact hb _ (List.mem_cons_of_mem _ h2)

theorem maxBySnd_eq_none (l : List (String × ℚ)) :
    maxBySnd l = none ↔ l = [] := by
  cases l <;> simp [maxBySnd]

theorem maxBySnd_spec (l : List (String × ℚ)) (m : String × ℚ)
    (h : maxBySnd l = some m) : m ∈ l ∧ ∀ y ∈ l, y.2 ≤ m.2 := by
  cases l with
  | nil => cases h
  | cons x xs =>
    simp only [maxBySnd, Option.some.injEq] at h
    subst h
    exact foldl_max_spec xs x

/-! ## Aggregator claims -/

/-- C4: `choose_best_ean` returns `none` exactly when no code is
extracted from any item's text; otherwise it returns an extracted code
whose accumulated score — each item contributing `base * weight` to
every code extracted from its text, with `base = 2` on a keyword hit
and `1` otherwise — is maximal among all extracted codes. -/
theorem choose_best_contract (items : List (String × ℚ)) :
    (choose_best_ean items = none ↔
      ∀ tw ∈ items, find_eans_in_text tw.1 = []) ∧
      ∀ c, choose_best_ean items = some c →
        (∃ tw ∈ items, c ∈ find_eans_in_text tw.1) ∧
          ∀ d, (∃ tw ∈ items, d ∈ find_eans_in_text tw.1) →
            specScore items d ≤ specScore items c := by
  constructor
  · unfold choose_best_ean
    rw [Option.map_eq_none', maxBySnd_eq_none, buildScores_eq_nil_iff]
  · intro c hc
    unfold choose_best_ean at hc
    rcases Option.map_eq_some'.mp hc with ⟨m, hm, hmc⟩
    obtain ⟨hmem, hmax⟩ := maxBySnd_spec _ _ hm
    have hkeys := keys_nodup_buildScores items
    have hcmem : c ∈ (buildScores items).map Prod.fst := by
      rw [← hmc]
      exact List.mem_map_of_mem _ hmem
    constructor
    · exact (mem_keys_buildScores items c).mp hcmem
    · intro d hd
      have hdk : d ∈ (buildScores items).map Prod.fst :=
        (mem_keys_buildScores items d).mpr hd
      rcases List.mem_map.mp hdk with ⟨kv, hkv, hkvd⟩
      have h1 : specScore items d = kv.2 := by
        rw [← getScore_buildScores, ← hkvd]
        exact getScore_of_mem_nodup _ hkeys kv hkv
      have h2 : specScore items c = m.2 := by
        rw [← getScore_buildScores, ← hmc]
        exact getScore_of_mem_nodup _ hkeys m hmem
      rw [h1, h2]
      exact hmax kv hkv

/-- Witness for C4 on a one-item evidence list whose text yields the
code `5903396373473`. -/
theorem choose_best_contract_witness :
    specScore [("Product EAN: 5903396373473", (1 : ℚ))] "5903396373473" ≤
      specScore [("Product EAN: 5903396373473", (1 : ℚ))]
        "5903396373473" :=
  ((choose_best_contract [("Product EAN: 5903396373473", (1 : ℚ))]).2
      "5903396373473" (by decide)).2 "5903396373473"
    ⟨("Product EAN: 5903396373473", (1 : ℚ)), by decide, by decide⟩

/-- C8: appending one evidence item whose text contains an
already-weakly-leading code `c` together with a keyword match cannot
make any other code `d` overtake `c` in accumulated score. -/
theorem aggregator_monotone (items : List (String × ℚ)) (t : String)
    (w : ℚ) (c d : String) (hc : c ∈ find_eans_in_text t)
    (hk : keyword_hit t = true) (hw : 0 ≤ w)
    (hlead : getScore (buildScores items) d ≤
      getScore (buildScores items) c) :
    getScore (buildScores (items ++ [(t, w)])) d ≤
      getScore (buildScores (items ++ [(t, w)])) c := by
  rw [getScore_buildScores, getScore_buildScores] at hlead ⊢
  have hspec : ∀ x : String, specScore (items ++ [(t, w)]) x =
      specScore items x +
        (if x ∈ find_eans_in_text t then
          (if keyword_hit t then (2 : ℚ) else 1) * w
        else 0) := by
    intro x
    unfold specScore
    rw [List.map_append, List.sum_append]
    simp
  rw [hspec, hspec, if_pos hc, hk]
  simp only [if_true]
  by_cases hd : d ∈ find_eans_in_text t
  · rw [if_pos hd]
    linarith
  · rw [if_neg hd]
    linarith

/-- Witness for C8: the (weakly) leading code `4006381333931` keeps its
lead over `5903396373473` after one keyword-matching item arrives. -/
theorem aggregator_monotone_witness :
    getScore (buildScores ([] ++ [("ean 4006381333931", (1 : ℚ))]))
        "5903396373473" ≤
      getScore (buildScores ([] ++ [("ean 4006381333931", (1 : ℚ))]))
        "4006381333931" :=
  aggregator_monotone [] "ean 4006381333931" 1 "4006381333931"
    "5903396373473" (by decide) (by decide) zero_le_one (le_refl 0)
